import Mathlib

/-!
# Verification of the sherlog logging engine

A shallow embedding of the sherlog Go library (leveled exceptions, file
sinks, rolling file sinks, level-based routing and fan-out logging),
together with theorems settling the specification claims about it.

Strings manipulated character by character in the source (file-name
rotation) are modelled as `List Char`; other Go strings are modelled as
Lean `String`.  Go `error` results are modelled as `Option GoError`
(`none` = `nil`).  Effects of the runtime (stack capture, the clock) are
passed in explicitly as a `CaptureEnv`.
-/

namespace Sherlog

/-- Model of a Go `time.Time` instant, restricted to the calendar fields
that the two layout strings of the package (`timeFmt` and
`timeFileNameFmt` in `global.go`) observe.  The configured `Location`
is already applied: these are the wall-clock fields in that zone. -/
structure Timestamp where
  year : Nat
  month : Nat
  day : Nat
  hour : Nat
  minute : Nat
  second : Nat
deriving DecidableEq, Repr

/-- Zero-padding to two digits, as Go layout components `01`, `02`, `15`,
`04`, `05` render. -/
def pad2 (n : Nat) : String :=
  if n < 10 then "0" ++ toString n else toString n

/-- Zero-padding to four digits, as the Go layout component `2006` renders. -/
def pad4 (n : Nat) : String :=
  if n < 10 then "000" ++ toString n
  else if n < 100 then "00" ++ toString n
  else if n < 1000 then "0" ++ toString n
  else toString n

/-- `t.Format(timeFmt)` with `timeFmt = "2006-01-02 15:04:05"` (global.go). -/
def formatTimeFmt (t : Timestamp) : String :=
  pad4 t.year ++ "-" ++ pad2 t.month ++ "-" ++ pad2 t.day ++ " "
    ++ pad2 t.hour ++ ":" ++ pad2 t.minute ++ ":" ++ pad2 t.second

/-- Model of the `Level` interface: its two observable methods
`GetLevelId` and `GetLabel` (part_004 / classifiedexception.go). -/
structure Level where
  levelId : Int
  label : String
deriving DecidableEq, Repr

/-- `StackTraceEntry` (part_014): one captured call frame.  Field names are
the exported Go field names, which are also the JSON key names. -/
structure StackTraceEntry where
  FunctionName : String
  File : String
  Line : Int
deriving DecidableEq, Repr

/-- `StackTraceEntry.String` (part_014): `fn(file:line)`. -/
def StackTraceEntry.string (ste : StackTraceEntry) : String :=
  ste.FunctionName ++ "(" ++ ste.File ++ ":" ++ toString ste.Line ++ ")"

/-- `stackTraceAsString` (part_014): tab-indented frame per line. -/
def stackTraceAsString (stackTrace : List StackTraceEntry) : String :=
  String.join (stackTrace.map (fun call => "\t" ++ call.string ++ "\n"))

/-- `StdException` (stdexception.go): the basic sherlog event.  The Go
struct stores `stackTrace` as `[]*StackTraceEntry`; the pointees are
modelled by value.  `stackTraceStr = ""` means the stack string has not
been rendered and cached yet. -/
structure StdException where
  stackTrace : List StackTraceEntry
  stackTraceStr : String
  maxStackTraceSize : Nat
  message : String
  timestamp : Timestamp
  messageChain : List String
  NonLoggedMsg : String
deriving DecidableEq, Repr

/-- `GetStackTraceAsString` (stdexception.go), value part: the cached string
if present, otherwise the rendering of the captured frames.  (The Go method
also memoizes the rendering into `stackTraceStr`; claims here only need the
returned value.) -/
def StdException.getStackTraceAsString (se : StdException) : String :=
  if se.stackTraceStr = "" then stackTraceAsString se.stackTrace else se.stackTraceStr

/-- `LeveledException` (part_004): a `StdException` plus a log level. -/
structure LeveledException where
  std : StdException
  level : Level
deriving DecidableEq, Repr

/-- `LeveledException.SetLevel` (part_004 lines 55-57): overwrites the level
field and nothing else. -/
def LeveledException.setLevel (le : LeveledException) (level : Level) : LeveledException :=
  { le with level := level }

/-- The runtime environment consumed by event constructors: the clock
(`time.Now().In(Location)`) and the stack capture primitive
(`getStackTrace skip depth`, part_014). -/
structure CaptureEnv where
  now : Timestamp
  callers : Nat → Nat → List StackTraceEntry

/-- `defaultStackTraceDepth` (global.go). -/
def defaultStackTraceDepth : Nat := 256

/-- `newStdException` (stdexception.go lines 58-66). -/
def newStdException (message : String) (stackTraceNumLines skip : Nat)
    (env : CaptureEnv) : StdException :=
  { stackTrace := env.callers skip stackTraceNumLines
    stackTraceStr := ""
    maxStackTraceSize := stackTraceNumLines
    message := message
    timestamp := env.now
    messageChain := []
    NonLoggedMsg := "" }

/-- `newLeveledException` (part_004 lines 83-88). -/
def newLeveledException (message : String) (level : Level)
    (maxStackTraceDepth skip : Nat) (env : CaptureEnv) : LeveledException :=
  { std := newStdException message maxStackTraceDepth skip env
    level := level }

/-- `LeveledException.Error` (part_004 lines 198-207). -/
def LeveledException.error (le : LeveledException) : String :=
  " - " ++ le.level.label ++ " - " ++ le.std.message ++ ":\n"
    ++ le.std.getStackTraceAsString

/-- `StdException.Error` (stdexception.go lines 225-232). -/
def StdException.error (se : StdException) : String :=
  " - " ++ se.message ++ ":\n" ++ se.getStackTraceAsString

/-- A non-nil Go `error` value as far as this package inspects one: either
a `*LeveledException`, or any other error exposing only its `Error()`
text.  A nilable `error` variable is `Option GoError`. -/
inductive GoError where
  | leveled (le : LeveledException)
  | plain (msg : String)
deriving DecidableEq, Repr

/-- `Error()` of a modelled error value. -/
def GoError.text : GoError → String
  | .leveled le => le.error
  | .plain msg => msg

/-- `errorToLeveledError` (part_002 lines 163-173): `nil` stays `nil`; an
error that already is a `*LeveledException` has its level overwritten in
place (`SetLevel`) and is returned as-is; any other error seeds a brand-new
`LeveledException` from its `Error()` text, capturing a fresh stack. -/
def errorToLeveledError (err : Option GoError) (level : Level) (skip : Nat)
    (env : CaptureEnv) : Option LeveledException :=
  match err with
  | none => none
  | some (.leveled le) => some (le.setLevel level)
  | some (.plain msg) =>
      some (newLeveledException msg level defaultStackTraceDepth skip env)

/-- A Go `interface{}` argument as far as `graduateOrConcatAndCreate`
inspects one: a nil interface, a (non-nil) error value, a string, or a
value of any other dynamic type carrying its `fmt` rendering. -/
inductive GoValue where
  | nilv
  | errv (e : GoError)
  | strv (s : String)
  | otherv (rendered : String)
deriving DecidableEq, Repr

/-- The type assertion `values[0].(error)`: succeeds exactly on non-nil
error values.  A nil interface or a value of a non-error dynamic type
fails the assertion, leaving the checked variable `nil`. -/
def GoValue.asError : GoValue → Option GoError
  | .errv e => some e
  | _ => none

/-- How `fmt.Sprint` renders a single operand. -/
def GoValue.render : GoValue → String
  | .nilv => "<nil>"
  | .errv e => e.text
  | .strv s => s
  | .otherv r => r

/-- Whether the operand's dynamic type is `string`, for `fmt.Sprint`'s
spacing rule. -/
def GoValue.isStringOperand : GoValue → Bool
  | .strv _ => true
  | _ => false

/-- `fmt.Sprint(values...)`: concatenation, inserting a space between two
operands when neither is a string. -/
def sprint : List GoValue → String
  | [] => ""
  | [v] => v.render
  | v :: w :: rest =>
      v.render ++ (if v.isStringOperand || w.isStringOperand then "" else " ")
        ++ sprint (w :: rest)

/-- `graduateOrConcatAndCreate` (part_002 lines 142-156).  With exactly one
argument it keeps the pre-1.7.0 behaviour: assert it to `error`; on success
graduate it, otherwise the checked variable is `nil` and the function
returns `nil`.  With any other arity it concatenates the values
(`fmt.Errorf(fmt.Sprint(values...))`, a plain error) and graduates that.
The model assumes the concatenated text contains no `%` verb, which
`fmt.Errorf` would reinterpret. -/
def graduateOrConcatAndCreate (level : Level) (values : List GoValue)
    (env : CaptureEnv) : Option LeveledException :=
  match values with
  | [v] =>
      match v.asError with
      | some e => errorToLeveledError (some e) level 7 env
      | none => none
  | _ => errorToLeveledError (some (.plain (sprint values))) level 7 env

/-- A JSON value, for the shape of the maps handed to `json.Marshal`. -/
inductive Json where
  | str (s : String)
  | int (n : Int)
  | arr (elems : List Json)
  | obj (fields : List (String × Json))

/-- `json.Marshal` of a `*StackTraceEntry`: an object with the three
exported field names, in declaration order. -/
def StackTraceEntry.toJson (ste : StackTraceEntry) : Json :=
  .obj [("FunctionName", .str ste.FunctionName),
        ("File", .str ste.File),
        ("Line", .int ste.Line)]

/-- Setting a key in a Go `map[string]interface{}`: overwrite if present,
otherwise add.  The Go map is unordered; the association list fixes one
order, and key-set statements are order-independent. -/
def mapSet (m : List (String × Json)) (k : String) (v : Json) : List (String × Json) :=
  if m.any (fun kv => kv.1 = k) then
    m.map (fun kv => if kv.1 = k then (k, v) else kv)
  else
    m ++ [(k, v)]

/-- `StdException.ToJsonMap` (stdexception.go lines 290-297). -/
def StdException.toJsonMap (se : StdException) : List (String × Json) :=
  [("Time", .str (formatTimeFmt se.timestamp)),
   ("Message", .str se.message),
   ("StackTrace", .arr (se.stackTrace.map StackTraceEntry.toJson)),
   ("StackTraceStr", .str se.getStackTraceAsString)]

/-- `LeveledException.ToJsonMap` (part_004 lines 267-271): the embedded
exception's map with the `Level` key added. -/
def LeveledException.toJsonMap (le : LeveledException) : List (String × Json) :=
  mapSet le.std.toJsonMap "Level" (.str le.level.label)

/-- Keys of a JSON object association list. -/
def jsonKeys (m : List (String × Json)) : List String := m.map Prod.fst

/-- Lookup in a JSON object association list. -/
def jsonGet (m : List (String × Json)) (k : String) : Option Json :=
  match m with
  | [] => none
  | kv :: rest => if kv.1 = k then some kv.2 else jsonGet rest k

/-- Keys of a JSON object value (empty for non-objects). -/
def objKeys : Json → List String
  | .obj fields => fields.map Prod.fst
  | _ => []

/-- Which of the three `Loggable` render methods a write uses. -/
inductive RenderMode where
  | full
  | noStack
  | json
deriving DecidableEq, Repr

/-- A member sink of a `PolyLogger`, observed through the outcome of its
write for a given event and mode: `none` = success, `some e` = the write
returned error `e`. -/
def MemberSink : Type := Option GoError → RenderMode → Option GoError

/-- `PolyLogger` (part_015): the fan-out sink.  `handleLoggerFailSet`
records whether a failure handler is configured (`handleLoggerFail` is
non-nil). -/
structure PolyLogger where
  Loggers : List MemberSink
  handleLoggerFailSet : Bool

/-- `runLoggerWithFail` (part_015 lines 98-104): run one member write and
hand its error, if any, to the failure handler; the returned list is the
sequence of handler invocations this member contributes. -/
def runLoggerWithFail (handlerSet : Bool) (writeResult : Option GoError) : List GoError :=
  match writeResult with
  | some e => if handlerSet then [e] else []
  | none => []

/-- What a `PolyLogger` write call yields to its environment: the value
returned to the caller, the errors handed to the failure handler, and the
number of member writes that completed before the call returned
(`waitGroup.Wait` blocks on all of them). -/
structure FanOutOutcome where
  ret : Option GoError
  handled : List GoError
  completed : Nat
deriving Repr

/-- The common body of `PolyLogger.Log`, `LogNoStack` and `LogJson`
(part_015 lines 54-95): dispatch one task per member sink, each calling
that sink's write with the same event and mode, wait for all of them, and
return `nil`.  The per-member goroutines are sequentialised in member
order; the multiset of handler invocations and the completion count are
order-independent.  (The `logger.(Logger)` assertion in `LogNoStack` /
`LogJson` asserts to the interface the member already has and always
succeeds on the non-nil members modelled here.) -/
def PolyLogger.logWith (p : PolyLogger) (mode : RenderMode)
    (errToLog : Option GoError) : FanOutOutcome :=
  let results := p.Loggers.map (fun w => w errToLog mode)
  { ret := none
    handled := results.foldr (fun r acc => runLoggerWithFail p.handleLoggerFailSet r ++ acc) []
    completed := results.length }

/-- `PolyLogger.Log` (part_015 lines 54-61). -/
def PolyLogger.log (p : PolyLogger) (errToLog : Option GoError) : FanOutOutcome :=
  p.logWith .full errToLog

/-- `PolyLogger.LogNoStack` (part_015 lines 69-78). -/
def PolyLogger.logNoStack (p : PolyLogger) (errToLog : Option GoError) : FanOutOutcome :=
  p.logWith .noStack errToLog

/-- `PolyLogger.LogJson` (part_015 lines 86-95). -/
def PolyLogger.logJson (p : PolyLogger) (errToLog : Option GoError) : FanOutOutcome :=
  p.logWith .json errToLog

/-- First-match association lookup, modelling a Go map read (`m[k]`; a
missing key yields the zero value, i.e. `nil`).  Generic in the key type:
`Level` is an interface and routing tables may be keyed by custom level
implementations. -/
def assocFind {κ : Type} [DecidableEq κ] {β : Type} (k : κ) : List (κ × β) → Option β
  | [] => none
  | kv :: rest => if kv.1 = k then some kv.2 else assocFind k rest

/-- `MultiFileLogger` (part_000): underlying sinks are identified by the
order in which they were constructed. -/
structure MultiFileLogger (κ : Type) where
  loggers : List (κ × Nat)
  defaultLogger : Nat

/-- The dispatch shared by `MultiFileLogger.Log` / `LogNoStack` / `LogJson`
(part_000 lines 337-345): if the event asserts to `LeveledLoggable`
(`eventLevel = some lvl`) look its level up in the routing table and, when
the entry is non-nil, delegate there; in every other case use the default
sink.  The returned sink id is the one whose write is invoked. -/
def MultiFileLogger.route {κ : Type} [DecidableEq κ] (mfl : MultiFileLogger κ)
    (eventLevel : Option κ) : Nat :=
  match eventLevel with
  | some lvl =>
      match assocFind lvl mfl.loggers with
      | some lg => lg
      | none => mfl.defaultLogger
  | none => mfl.defaultLogger

/-- Build state of `createRobustLoggers`: the level table built so far, the
path cache (`cachedLoggers`), and the number of sinks constructed so far
(sink ids are allocated in construction order). -/
structure RobustBuild (κ : Type) where
  loggers : List (κ × Nat)
  cached : List (String × Nat)
  constructed : Nat
deriving Repr

/-- `createRobustLoggers` (part_000 lines 278-296): walk the level-to-path
table; reuse the cached sink when one exists for the path, otherwise
construct a fresh sink and cache it.  The sink constructor is modelled as
allocation of the next sink id; a constructor failure aborts the build in
Go, so the build-success path is what is modelled. -/
def buildLoggers {κ : Type} [DecidableEq κ] (acc : RobustBuild κ) :
    List (κ × String) → RobustBuild κ
  | [] => acc
  | (lvl, path) :: rest =>
      match assocFind path acc.cached with
      | some id => buildLoggers { acc with loggers := acc.loggers ++ [(lvl, id)] } rest
      | none =>
          buildLoggers
            { loggers := acc.loggers ++ [(lvl, acc.constructed)]
              cached := acc.cached ++ [(path, acc.constructed)]
              constructed := acc.constructed + 1 } rest

/-- `createRobustLoggers` from the empty build state. -/
def createRobustLoggers {κ : Type} [DecidableEq κ] (paths : List (κ × String)) :
    RobustBuild κ :=
  buildLoggers ⟨[], [], 0⟩ paths

/-- `MultiFileLogger.Close` (part_000 lines 381-386): `Close` is invoked on
the mapped sink of every level entry of the routing table, then on the
default sink; the list is the sequence of sink ids receiving a `Close`
call (Go map iteration order is unspecified; per-sink call counts are
order-independent). -/
def closeTrace {κ : Type} (loggers : List (κ × Nat)) (defaultId : Nat) : List Nat :=
  loggers.map Prod.snd ++ [defaultId]

/-- `SizeBasedRollingFileLogger` (size_based_rolling_file_logger.go),
restricted to the rotation state: the threshold (`countToRollOn`, a Go
int), the counter, and the path of the active file. -/
structure SizeBasedRollingFileLogger where
  countToRollOn : Int
  curCount : Int
  logFilePath : String
deriving DecidableEq, Repr

/-- `NewRollingFileLoggerWithSizeLimit` (size_based_rolling_file_logger.go
lines 15-30): rejects a non-positive threshold; otherwise starts with a
zero counter on the freshly named initial file. -/
def newRollingFileLoggerWithSizeLimit (numMessagesPerFile : Int)
    (initialName : String) : Option SizeBasedRollingFileLogger :=
  if numMessagesPerFile ≤ 0 then none
  else some { countToRollOn := numMessagesPerFile, curCount := 0, logFilePath := initialName }

/-- `incAndRollIfNecessary` plus `roll` (size_based_rolling_file_logger.go
lines 68-80): increment the counter; at the threshold, roll — swap the
active path for the freshly generated `newName`, passing through the roll's
open outcome `rollErr` — and reset the counter to 0. -/
def SizeBasedRollingFileLogger.incAndRollIfNecessary
    (s : SizeBasedRollingFileLogger) (newName : String) (rollErr : Option GoError) :
    SizeBasedRollingFileLogger × Option GoError :=
  let c := s.curCount + 1
  if s.countToRollOn ≤ c then
    ({ s with curCount := 0, logFilePath := newName }, rollErr)
  else
    ({ s with curCount := c }, none)

/-- `SizeBasedRollingFileLogger.Log` / `LogNoStack` / `LogJson`
(size_based_rolling_file_logger.go lines 35-66): perform the underlying
write (outcome `writeRes`); on failure return the error without touching
the counter; on success run `incAndRollIfNecessary`.  The third component
reports the file the record landed in (`none` when the write failed). -/
def SizeBasedRollingFileLogger.log (s : SizeBasedRollingFileLogger)
    (writeRes : Option GoError) (newName : String) (rollErr : Option GoError) :
    SizeBasedRollingFileLogger × Option GoError × Option String :=
  match writeRes with
  | some e => (s, some e, none)
  | none =>
      let step := s.incAndRollIfNecessary newName rollErr
      (step.1, step.2, some s.logFilePath)

/-- A run of successful writes against a size-based rolling sink; the n-th
element of the oracle list is the name a roll during the n-th write would
switch to.  Returns the final state and the file each record landed in. -/
def runOkWrites (s : SizeBasedRollingFileLogger) :
    List String → SizeBasedRollingFileLogger × List String
  | [] => (s, [])
  | n :: ns =>
      let step := s.log none n none
      let rest := runOkWrites step.1 ns
      (rest.1, step.2.2.toList ++ rest.2)

/-- An open OS file handle (opaque). -/
def FileHandle : Type := Nat

/-- `RollingFileLogger` (rolling_file_logger.go), restricted to the fields
`roll` and the write path touch.  `file = none` models a nil `*os.File`
handle. -/
structure RollingFileLogger where
  logFilePath : String
  file : Option FileHandle
  baseFilePath : String
  running : Bool

/-- `RollingFileLogger.roll` (rolling_file_logger.go lines 79-87): close
the current handle, compute the new name, install whatever `openFile`
returned — nil on failure — and return the open error. -/
def RollingFileLogger.roll (s : RollingFileLogger) (newName : String)
    (openRes : Except GoError FileHandle) : RollingFileLogger × Option GoError :=
  ({ s with logFilePath := newName, file := openRes.toOption },
   match openRes with
   | .ok _ => none
   | .error e => some e)

/-- `rollIn` (rolling_file_logger.go lines 74-77), the background timer
path: `rfl.roll()` as a bare statement — the returned error is discarded
and only the state survives. -/
def RollingFileLogger.rollIn (s : RollingFileLogger) (newName : String)
    (openRes : Except GoError FileHandle) : RollingFileLogger :=
  (s.roll newName openRes).1

/-- One `writer.Write` against a possibly-nil file handle: every operation
on a nil `*os.File` fails with `os.ErrInvalid`; writes through a live
handle are assumed to succeed (the open file is an external
collaborator). -/
def fwrite : Option FileHandle → String → Option GoError
  | none, _ => some (.plain "invalid argument")
  | some _, _ => none

/-- `file.Sync()` against a possibly-nil handle. -/
def fsync : Option FileHandle → Option GoError
  | none => some (.plain "invalid argument")
  | some _ => none

/-- A `Loggable` render method run against a writer: a sequence of
`writer.Write` calls for the rendered chunks, stopping at the first
failure (stdexception.go / part_004 render methods). -/
def writeChunks (file : Option FileHandle) : List String → Option GoError
  | [] => none
  | c :: cs =>
      match fwrite file c with
      | some e => some e
      | none => writeChunks file cs

/-- `FileLogger.log` (logger.go lines 94-106): run the render against the
sink's handle, then `Sync`; the first error is returned to the caller. -/
def FileLogger.log (file : Option FileHandle) (chunks : List String) : Option GoError :=
  match writeChunks file chunks with
  | some e => some e
  | none => fsync file

/-- `filepath.Ext`, scanning the path from its end: stop at a path
separator, return the suffix from the last dot if one is met first.  The
accumulator carries the characters already scanned, in original order. -/
def extSearch : List Char → List Char → List Char
  | [], _ => []
  | c :: rest, acc =>
      if c = '/' then []
      else if c = '.' then '.' :: acc
      else extSearch rest (c :: acc)

/-- `filepath.Ext(path)`. -/
def goExt (path : List Char) : List Char := extSearch path.reverse []

/-- `strings.Index(name, "(")`: position of the first parenthesis, if
any. -/
def findParen : List Char → Option Nat
  | [] => none
  | c :: rest => if c = '(' then some 0 else (findParen rest).map (· + 1)

/-- The decimal digit character for a value below ten. -/
def digitChar (d : Nat) : Char := Char.ofNat (48 + d)

/-- Value of a decimal digit character. -/
def charVal (c : Char) : Nat := c.toNat - 48

/-- Decimal digits of `n`, most significant first, by repeated division;
the fuel argument bounds the recursion and `n` itself is always enough. -/
def natToCharsAux : Nat → Nat → List Char
  | 0, _ => []
  | fuel + 1, n => if n = 0 then [] else natToCharsAux fuel (n / 10) ++ [digitChar (n % 10)]

/-- Decimal rendering of a natural number, as `%d` prints one. -/
def natToChars (n : Nat) : List Char :=
  if n = 0 then ['0'] else natToCharsAux n n

/-- Value of a list of decimal digit characters. -/
def charsToNat (cs : List Char) : Nat :=
  Nat.ofDigits 10 ((cs.map charVal).reverse)

/-- `fmt.Sprintf("%d", i)` on a Go int. -/
def intToChars (i : Int) : List Char :=
  if i < 0 then '-' :: natToChars i.natAbs else natToChars i.toNat

/-- The `%d` conversion of `fmt.Fscanf(..., prefix+"(%d)")` at the position
just after the first parenthesis: an optional sign followed by a maximal
run of digits; when no digit is found the scan fails and the scanned
variable keeps its zero value.  (The scanner's leading-space skipping is
not modelled; the names this package generates never put spaces there.) -/
def parseVersion (after : List Char) : Int :=
  let signed : Bool := after.head? = some '-'
  let body : List Char :=
    if after.head? = some '-' then after.tail
    else if after.head? = some '+' then after.tail
    else after
  let ds := body.takeWhile Char.isDigit
  if ds = [] then 0
  else if signed then -(charsToNat ds : Int) else (charsToNat ds : Int)

/-- `incFileName` (rolling_file_logger.go lines 108-121): strip the
extension; if the name ends in `)` parse the parenthesised counter and
strip it; re-attach `(counter+1)` and the extension.  `none` models the
panics of the Go code (indexing an empty string; slicing with the -1 of a
failed `strings.Index`). -/
def incFileName (fileName : List Char) : Option (List Char) :=
  let ext := goExt fileName
  let name := fileName.take (fileName.length - ext.length)
  match name.getLast? with
  | none => none
  | some c =>
      if c = ')' then
        match findParen name with
        | none => none
        | some i =>
            let version := parseVersion (name.drop (i + 1))
            some (name.take i ++ '(' :: (intToChars (version + 1) ++ [')']) ++ ext)
      else
        some (name ++ '(' :: (intToChars 1 ++ [')']) ++ ext)

/-- `incFileNameUntilNotExists` (rolling_file_logger.go lines 96-101), with
the filesystem passed in as the list of existing names and the unbounded
retry loop given explicit fuel: `none` models looping beyond the fuel or a
panic of `incFileName`. -/
def incFileNameUntilNotExists (existing : List (List Char)) :
    Nat → List Char → Option (List Char)
  | 0, _ => none
  | fuel + 1, fileName =>
      if fileName ∈ existing then
        (incFileName fileName).bind (incFileNameUntilNotExists existing fuel)
      else
        some fileName

/-- Zero-padding to two digits, character-level. -/
def pad2Chars (n : Nat) : List Char :=
  if n < 10 then '0' :: natToChars n else natToChars n

/-- Zero-padding to four digits, character-level. -/
def pad4Chars (n : Nat) : List Char :=
  if n < 10 then '0' :: '0' :: '0' :: natToChars n
  else if n < 100 then '0' :: '0' :: natToChars n
  else if n < 1000 then '0' :: natToChars n
  else natToChars n

/-- `now.Format(timeFileNameFmt)` with `timeFileNameFmt = "_2006-01-02"`
(global.go). -/
def formatTimeFileName (t : Timestamp) : List Char :=
  '_' :: (pad4Chars t.year ++ '-' :: (pad2Chars t.month ++ '-' :: pad2Chars t.day))

/-- `getTimestampedFileName` (rolling_file_logger.go lines 89-94), with the
clock and the filesystem passed in explicitly: insert the formatted date
before the extension of the base path, then bump the name until it does
not collide with an existing file. -/
def getTimestampedFileName (existing : List (List Char)) (fuel : Nat)
    (now : Timestamp) (fileName : List Char) : Option (List Char) :=
  let ext := goExt fileName
  let base := fileName.take (fileName.length - ext.length) ++ formatTimeFileName now ++ ext
  incFileNameUntilNotExists existing fuel base

/-- The family of rotation names for base stem `stem`, extension `.e` and
date `t`: index 0 is the undecorated dated name, index `n+1` carries the
parenthesised counter `n+1`. -/
def rotName (stem e : List Char) (t : Timestamp) : Nat → List Char
  | 0 => stem ++ formatTimeFileName t ++ '.' :: e
  | n + 1 => stem ++ formatTimeFileName t ++ '(' :: (natToChars (n + 1) ++ [')']) ++ '.' :: e

/-- A concrete capture environment for evaluating the model. -/
def witnessEnv : CaptureEnv :=
  ⟨⟨2024, 1, 2, 3, 4, 5⟩, fun _ _ => []⟩

/-- A concrete fan-out sink: one member that always fails, one that always
succeeds, failure handler configured. -/
def witnessPoly : PolyLogger :=
  ⟨[fun _ _ => some (.plain "disk full"), fun _ _ => none], true⟩

/-- A concrete routing sink over `Nat` level ids. -/
def witnessRouter : MultiFileLogger Nat :=
  ⟨[(1, 10), (2, 20)], 99⟩

/-!
## Theorems

Claim theorems are named `cN_...`; helper lemmas carry no claim name.
-/

/-- Claim C7: for an event that already carries a level,
`errorToLeveledError` promotes it by calling `SetLevel` on the existing
`LevelWrapper`: only the level field changes; the message, timestamp,
captured stack trace, any cached stack-trace string and the cause chain
are untouched; no new stack trace is captured (the equation holds for
every capture environment `env`, and the result does not mention it); and
the returned event is the input record itself with the level overwritten,
not a freshly constructed one. -/
theorem c7_promote_changes_only_level (le : LeveledException) (level : Level)
    (skip : Nat) (env : CaptureEnv) :
    errorToLeveledError (some (.leveled le)) level skip env = some (le.setLevel level) ∧
    (le.setLevel level).std = le.std ∧
    (le.setLevel level).std.message = le.std.message ∧
    (le.setLevel level).std.timestamp = le.std.timestamp ∧
    (le.setLevel level).std.stackTrace = le.std.stackTrace ∧
    (le.setLevel level).std.stackTraceStr = le.std.stackTraceStr ∧
    (le.setLevel level).level = level :=
  ⟨rfl, rfl, rfl, rfl, rfl, rfl, rfl⟩

/-- Claim C10: `graduateOrConcatAndCreate` (hence `AsCritical` .. `AsDebug`)
called with exactly one argument whose dynamic type does not implement
`error` — a plain string, any other non-error value, or a nil interface —
returns `nil`: the failed type assertion leaves the checked error variable
nil, so no leveled event is created, exactly as in the single-nil-error
case. -/
theorem c10_single_non_error_is_swallowed (level : Level) (s r : String)
    (env : CaptureEnv) :
    graduateOrConcatAndCreate level [.strv s] env = none ∧
    graduateOrConcatAndCreate level [.otherv r] env = none ∧
    graduateOrConcatAndCreate level [.nilv] env = none :=
  ⟨rfl, rfl, rfl⟩

/-- Claim C9: the promote-or-concatenate helper joins more than one value
into a single message (`fmt.Sprint`) for a newly created leveled event,
and treats a single nil error argument as no event at all, returning
`nil`. -/
theorem c9_concat_or_swallow_nil :
    (∀ (level : Level) (values : List GoValue) (env : CaptureEnv),
        2 ≤ values.length →
        graduateOrConcatAndCreate level values env =
          some (newLeveledException (sprint values) level defaultStackTraceDepth 7 env)) ∧
    (∀ (level : Level) (env : CaptureEnv),
        graduateOrConcatAndCreate level [.nilv] env = none) := by
  constructor
  · intro level values env h
    match values with
    | [] => simp at h
    | [v] => simp at h
    | v :: w :: rest => rfl
  · intro level env
    rfl

/-- Witness for C9 at a concrete input: two string arguments are joined,
and the helper produces a new leveled event from the joined message. -/
theorem c9_witness :
    graduateOrConcatAndCreate ⟨1, "ERROR"⟩ [.strv "a", .strv "b"] witnessEnv =
      some (newLeveledException (sprint [.strv "a", .strv "b"]) ⟨1, "ERROR"⟩
        defaultStackTraceDepth 7 witnessEnv) :=
  c9_concat_or_swallow_nil.1 ⟨1, "ERROR"⟩ [.strv "a", .strv "b"] witnessEnv (by decide)

/-- Claim C8: the JSON render of a leveled event is an object with exactly
the keys `Time` (the formatted timestamp), `Level` (the level's label),
`Message`, `StackTrace` (an array of frame objects, each with exactly
`FunctionName`, `File` and `Line`) and `StackTraceStr` (the pre-rendered
stack text); for an event without a level (a bare `StdException`) the
`Level` key is omitted. -/
theorem c8_json_render_shape (le : LeveledException) :
    jsonKeys le.toJsonMap = ["Time", "Message", "StackTrace", "StackTraceStr", "Level"] ∧
    jsonGet le.toJsonMap "Time" = some (.str (formatTimeFmt le.std.timestamp)) ∧
    jsonGet le.toJsonMap "Level" = some (.str le.level.label) ∧
    jsonGet le.toJsonMap "Message" = some (.str le.std.message) ∧
    jsonGet le.toJsonMap "StackTrace" =
      some (.arr (le.std.stackTrace.map StackTraceEntry.toJson)) ∧
    (∀ ste : StackTraceEntry, objKeys ste.toJson = ["FunctionName", "File", "Line"]) ∧
    jsonGet le.toJsonMap "StackTraceStr" = some (.str le.std.getStackTraceAsString) ∧
    (∀ se : StdException, jsonGet se.toJsonMap "Level" = none) ∧
    (∀ se : StdException,
        jsonKeys se.toJsonMap = ["Time", "Message", "StackTrace", "StackTraceStr"]) := by
  refine ⟨rfl, rfl, rfl, rfl, rfl, fun ste => rfl, rfl, fun se => rfl, fun se => rfl⟩

/-- For a configured failure handler, the handler-invocation list of a
fan-out write contains each member error with the same multiplicity as the
member write results. -/
theorem fanOutHandledCount (rs : List (Option GoError)) (e : GoError) :
    (rs.foldr (fun r acc => runLoggerWithFail true r ++ acc) []).count e =
      rs.count (some e) := by
  induction rs with
  | nil => rfl
  | cons r rs ih =>
      rw [show ((r :: rs).foldr (fun r acc => runLoggerWithFail true r ++ acc) []) =
            runLoggerWithFail true r
              ++ rs.foldr (fun r acc => runLoggerWithFail true r ++ acc) [] from rfl]
      rw [List.count_append, ih, List.count_cons]
      cases r with
      | none => simp [runLoggerWithFail]
      | some x =>
          by_cases hx : x = e
          · subst hx
            simp [runLoggerWithFail, List.count_cons, List.count_nil, Nat.add_comm]
          · simp [runLoggerWithFail, List.count_cons, List.count_nil, hx]

/-- Claim C1: a fan-out write (`PolyLogger.Log` / `LogNoStack` / `LogJson`)
always returns `nil` to the original caller whatever the member outcomes;
with a configured failure handler, every error returned by a member sink's
write is handed to the handler exactly once per write call (multiplicity
equality); and the call completes only after every member sink's write has
completed (`waitGroup.Wait`), so the number of completed member writes
equals the number of members. -/
theorem c1_fan_out_isolation (p : PolyLogger) (ev : Option GoError)
    (h : p.handleLoggerFailSet = true) :
    ((p.log ev).ret = none ∧ (p.logNoStack ev).ret = none ∧ (p.logJson ev).ret = none) ∧
    (∀ (mode : RenderMode) (e : GoError),
        ((p.logWith mode ev).handled).count e =
          (p.Loggers.map (fun w => w ev mode)).count (some e)) ∧
    (∀ mode : RenderMode, (p.logWith mode ev).completed = p.Loggers.length) := by
  refine ⟨⟨rfl, rfl, rfl⟩, ?_, ?_⟩
  · intro mode e
    simp only [PolyLogger.logWith, h]
    exact fanOutHandledCount (p.Loggers.map (fun w => w ev mode)) e
  · intro mode
    simp [PolyLogger.logWith]

/-- Witness for C1 at a concrete fan-out sink with one failing and one
succeeding member: the call returns `nil`, the failing member's error
reaches the handler exactly once, and both member writes complete. -/
theorem c1_witness :
    (witnessPoly.log none).ret = none ∧
    ((witnessPoly.logWith .full none).handled).count (.plain "disk full") =
      (witnessPoly.Loggers.map (fun w => w none .full)).count (some (.plain "disk full")) ∧
    (witnessPoly.logWith .full none).completed = witnessPoly.Loggers.length :=
  ⟨(c1_fan_out_isolation witnessPoly none rfl).1.1,
   (c1_fan_out_isolation witnessPoly none rfl).2.1 .full (.plain "disk full"),
   (c1_fan_out_isolation witnessPoly none rfl).2.2 .full⟩

/-- Claim C3: a routing write delegates by the event's level: a present,
registered level goes to exactly its registered sink; a present but
unregistered level falls back to the default sink; an event with no level
goes to the default sink directly. -/
theorem c3_routing_dispatch {κ : Type} [DecidableEq κ] (mfl : MultiFileLogger κ)
    (lvl : κ) (sink : Nat) :
    (assocFind lvl mfl.loggers = some sink → mfl.route (some lvl) = sink) ∧
    (assocFind lvl mfl.loggers = none → mfl.route (some lvl) = mfl.defaultLogger) ∧
    mfl.route none = mfl.defaultLogger := by
  refine ⟨?_, ?_, rfl⟩
  · intro hfind
    simp [MultiFileLogger.route, hfind]
  · intro hfind
    simp [MultiFileLogger.route, hfind]

/-- Witness for C3 at a concrete routing table: level 1 is registered and
routed to its sink, level 5 is unregistered and falls back, and a
levelless event goes straight to the default sink. -/
theorem c3_witness :
    witnessRouter.route (some 1) = 10 ∧
    witnessRouter.route (some 5) = 99 ∧
    witnessRouter.route none = 99 :=
  ⟨(c3_routing_dispatch witnessRouter 1 10).1 (by decide),
   (c3_routing_dispatch witnessRouter 5 0).2.1 (by decide),
   (c3_routing_dispatch witnessRouter 1 10).2.2⟩

/-- Claim C6: when a roll cannot open the post-roll file, the background
timer path (`rollIn`) discards the roll's error — by construction it
returns only the new state — leaving the sink with a nil file handle; and
every subsequent write attempt against that handle (`FileLogger.log`,
which the rolling sink inherits) returns an error to its caller, since
every operation on a nil `*os.File` fails. -/
theorem c6_roll_failure_surfaces_on_write (s : RollingFileLogger)
    (newName : String) (e : GoError) :
    (s.rollIn newName (.error e)).file = none ∧
    (∀ chunks : List String,
        (FileLogger.log (s.rollIn newName (.error e)).file chunks).isSome = true) := by
  refine ⟨rfl, ?_⟩
  intro chunks
  cases chunks <;> rfl

/-- A run of successful writes splits along list append. -/
theorem runOkWrites_append (s : SizeBasedRollingFileLogger) (l1 l2 : List String) :
    runOkWrites s (l1 ++ l2) =
      ((runOkWrites (runOkWrites s l1).1 l2).1,
        (runOkWrites s l1).2 ++ (runOkWrites (runOkWrites s l1).1 l2).2) := by
  induction l1 generalizing s with
  | nil => simp [runOkWrites]
  | cons n ns ih =>
      simp [runOkWrites, ih, List.append_assoc]

/-- Every successful write lands in the file that was active when it was
appended, never in the post-roll file. -/
theorem log_lands_in_active_file (s : SizeBasedRollingFileLogger)
    (newName : String) (rollErr : Option GoError) :
    (s.log none newName rollErr).2.2 = some s.logFilePath := rfl

/-- Strictly below the threshold, a run of successful writes only
increments the counter, and every record lands in the active file. -/
theorem runOkWrites_no_roll (o f : String) (k c : Int) (j : Nat)
    (hj : c + j < k) :
    runOkWrites ⟨k, c, f⟩ (List.replicate j o) =
      (⟨k, c + j, f⟩, List.replicate j f) := by
  induction j generalizing c with
  | zero => simp [runOkWrites]
  | succ j ih =>
      have hlt : ¬ (k ≤ c + 1) := by push_cast at hj; omega
      have hstep : (SizeBasedRollingFileLogger.log ⟨k, c, f⟩ none o none) =
          (⟨k, c + 1, f⟩, none, some f) := by
        simp [SizeBasedRollingFileLogger.log,
          SizeBasedRollingFileLogger.incAndRollIfNecessary, hlt]
      rw [List.replicate_succ]
      simp only [runOkWrites, hstep]
      rw [ih (c + 1) (by push_cast at hj ⊢; omega)]
      refine Prod.ext ?_ ?_
      · simp [SizeBasedRollingFileLogger.mk.injEq]
        omega
      · simp [List.replicate_succ]

/-- Claim C4: for a `MessageCount(k)` rolling sink with `k ≥ 1`, each
successful write increments the counter; the k-th write reaches the
threshold, rolls to the freshly generated name and resets the counter to 0
immediately; writes 1..k all land in the initial file and the (k+1)-th
write lands in the newly named file; and every operation keeps the counter
inside `[0, k)`. -/
theorem c4_message_count_rolling (k : Nat) (f0 o : String) (hk : 1 ≤ k)
    (ho : o ≠ f0) :
    (runOkWrites ⟨(k : Int), 0, f0⟩ (List.replicate k o)).2 = List.replicate k f0 ∧
    (runOkWrites ⟨(k : Int), 0, f0⟩ (List.replicate k o)).1 = ⟨(k : Int), 0, o⟩ ∧
    (runOkWrites ⟨(k : Int), 0, f0⟩ (List.replicate (k + 1) o)).2 =
      List.replicate k f0 ++ [o] ∧
    o ≠ f0 ∧
    (∀ (s : SizeBasedRollingFileLogger) (wr rollErr : Option GoError) (nn : String),
        s.countToRollOn = (k : Int) → 0 ≤ s.curCount → s.curCount < (k : Int) →
        0 ≤ ((s.log wr nn rollErr).1).curCount ∧
        ((s.log wr nn rollErr).1).curCount < (k : Int) ∧
        ((s.log wr nn rollErr).1).countToRollOn = (k : Int)) := by
  obtain ⟨j, rfl⟩ : ∃ j, k = j + 1 := ⟨k - 1, by omega⟩
  have hj : (0 : Int) + j < ((j + 1 : Nat) : Int) := by push_cast; omega
  have hfirst := runOkWrites_no_roll o f0 ((j + 1 : Nat) : Int) 0 j hj
  have hrollStep :
      (SizeBasedRollingFileLogger.log ⟨((j + 1 : Nat) : Int), 0 + j, f0⟩ none o none) =
        (⟨((j + 1 : Nat) : Int), 0, o⟩, none, some f0) := by
    have hge : ((j + 1 : Nat) : Int) ≤ (0 + j) + 1 := by push_cast; omega
    simp [SizeBasedRollingFileLogger.log,
      SizeBasedRollingFileLogger.incAndRollIfNecessary, hge]
  have hk_writes :
      runOkWrites ⟨((j + 1 : Nat) : Int), 0, f0⟩ (List.replicate (j + 1) o) =
        (⟨((j + 1 : Nat) : Int), 0, o⟩, List.replicate (j + 1) f0) := by
    rw [List.replicate_succ' (n := j)]
    rw [runOkWrites_append, hfirst]
    simp only [runOkWrites, hrollStep]
    simp [List.replicate_succ' (n := j)]
  refine ⟨by rw [hk_writes], by rw [hk_writes], ?_, ho, ?_⟩
  · rw [List.replicate_succ' (n := j + 1)]
    rw [runOkWrites_append, hk_writes]
    simp only [runOkWrites]
    rw [log_lands_in_active_file]
    simp
  · intro s wr rollErr nn hcount h0 hlt
    cases wr with
    | some e =>
        exact ⟨h0, hlt, hcount⟩
    | none =>
        simp only [SizeBasedRollingFileLogger.log,
          SizeBasedRollingFileLogger.incAndRollIfNecessary]
        by_cases hge : s.countToRollOn ≤ s.curCount + 1
        · simp only [hge, if_pos]
          refine ⟨le_refl 0, ?_, hcount⟩
          omega
        · simp only [hge, if_neg, not_false_iff]
          exact ⟨by omega, by omega, hcount⟩

/-- Witness for C4 with threshold 2: the first two writes land in the
initial file and the third lands in the rolled file. -/
theorem c4_witness :
    (runOkWrites ⟨(2 : Int), 0, "a.log"⟩ (List.replicate 3 "b.log")).2 =
      List.replicate 2 "a.log" ++ ["b.log"] :=
  (c4_message_count_rolling 2 "a.log" "b.log" (by decide) (by decide)).2.2.1

/-- First-match lookup ignores what is appended after a hit. -/
theorem assocFind_append_left {κ β : Type} [DecidableEq κ] (k : κ)
    (l1 l2 : List (κ × β)) (v : β) (h : assocFind k l1 = some v) :
    assocFind k (l1 ++ l2) = some v := by
  induction l1 with
  | nil => simp [assocFind] at h
  | cons kv rest ih =>
      by_cases hk : kv.1 = k
      · simpa [assocFind, hk] using h
      · rw [List.cons_append]
        simp only [assocFind, hk, if_false] at h ⊢
        exact ih h

/-- First-match lookup passes over a miss. -/
theorem assocFind_append_right {κ β : Type} [DecidableEq κ] (k : κ)
    (l1 l2 : List (κ × β)) (h : assocFind k l1 = none) :
    assocFind k (l1 ++ l2) = assocFind k l2 := by
  induction l1 with
  | nil => simp
  | cons kv rest ih =>
      by_cases hk : kv.1 = k
      · simp [assocFind, hk] at h
      · rw [List.cons_append]
        simp only [assocFind, hk, if_false] at h ⊢
        exact ih h

/-- A lookup hit is a member. -/
theorem assocFind_mem {κ β : Type} [DecidableEq κ] (k : κ) (l : List (κ × β)) (v : β)
    (h : assocFind k l = some v) : (k, v) ∈ l := by
  induction l with
  | nil => simp [assocFind] at h
  | cons kv rest ih =>
      obtain ⟨a, b⟩ := kv
      rw [show assocFind k ((a, b) :: rest) =
            if a = k then some b else assocFind k rest from rfl] at h
      split at h
      · rename_i hk
        subst hk
        have hv := Option.some_inj.mp h
        subst hv
        exact List.mem_cons_self _ _
      · exact List.mem_cons_of_mem _ (ih h)

/-- A lookup misses exactly when the key is absent. -/
theorem assocFind_eq_none {κ β : Type} [DecidableEq κ] (k : κ) (l : List (κ × β)) :
    assocFind k l = none ↔ k ∉ l.map Prod.fst := by
  induction l with
  | nil => simp [assocFind]
  | cons kv rest ih =>
      by_cases hk : kv.1 = k
      · simp [assocFind, hk]
      · simp [assocFind, hk, ih, Ne.symm hk]

/-- When the values of an association list are pairwise distinct, a common
value pins down the key. -/
theorem assocFind_snd_inj {κ β : Type} [DecidableEq κ] (l : List (κ × β))
    (hnd : (l.map Prod.snd).Nodup) (p q : κ) (i : β)
    (hp : assocFind p l = some i) (hq : assocFind q l = some i) : p = q := by
  induction l with
  | nil => simp [assocFind] at hp
  | cons kv rest ih =>
      obtain ⟨a, b⟩ := kv
      simp only [List.map_cons, List.nodup_cons] at hnd
      rw [show assocFind p ((a, b) :: rest) =
            if a = p then some b else assocFind p rest from rfl] at hp
      rw [show assocFind q ((a, b) :: rest) =
            if a = q then some b else assocFind q rest from rfl] at hq
      split at hp
      · rename_i hap
        split at hq
        · rename_i haq
          exact hap.symm.trans haq
        · exfalso
          have hib := Option.some_inj.mp hp
          refine hnd.1 ?_
          rw [hib]
          exact List.mem_map_of_mem Prod.snd (assocFind_mem q rest i hq)
      · split at hq
        · exfalso
          have hib := Option.some_inj.mp hq
          refine hnd.1 ?_
          rw [hib]
          exact List.mem_map_of_mem Prod.snd (assocFind_mem p rest i hp)
        · exact ih hnd.2 hp hq

/-- Build step on a path that already has a cached sink. -/
theorem buildLoggers_cons_found {κ : Type} [DecidableEq κ] (acc : RobustBuild κ)
    (lvl : κ) (path : String) (rest : List (κ × String)) (id : Nat)
    (hfind : assocFind path acc.cached = some id) :
    buildLoggers acc ((lvl, path) :: rest) =
      buildLoggers { acc with loggers := acc.loggers ++ [(lvl, id)] } rest := by
  rw [buildLoggers, hfind]

/-- Build step on a path met for the first time. -/
theorem buildLoggers_cons_fresh {κ : Type} [DecidableEq κ] (acc : RobustBuild κ)
    (lvl : κ) (path : String) (rest : List (κ × String))
    (hfind : assocFind path acc.cached = none) :
    buildLoggers acc ((lvl, path) :: rest) =
      buildLoggers
        { loggers := acc.loggers ++ [(lvl, acc.constructed)]
          cached := acc.cached ++ [(path, acc.constructed)]
          constructed := acc.constructed + 1 } rest := by
  rw [buildLoggers, hfind]

/-- Cached sink lookups survive the rest of a build: the cache only
grows by appends. -/
theorem buildLoggers_cache_stable {κ : Type} [DecidableEq κ] :
    ∀ (rest : List (κ × String)) (acc : RobustBuild κ) (p : String) (i : Nat),
    assocFind p acc.cached = some i →
    assocFind p (buildLoggers acc rest).cached = some i := by
  intro rest
  induction rest with
  | nil => intro acc p i h; exact h
  | cons lp rest ih =>
      intro acc p i h
      obtain ⟨lvl, path⟩ := lp
      show assocFind p (buildLoggers _ ((lvl, path) :: rest)).cached = some i
      rw [buildLoggers]
      cases hfind : assocFind path acc.cached with
      | some id => exact ih _ p i h
      | none => exact ih _ p i (assocFind_append_left p _ _ i h)

/-- Level-table lookups survive the rest of a build: the table only grows
by appends. -/
theorem buildLoggers_loggers_stable {κ : Type} [DecidableEq κ] :
    ∀ (rest : List (κ × String)) (acc : RobustBuild κ) (l : κ) (i : Nat),
    assocFind l acc.loggers = some i →
    assocFind l (buildLoggers acc rest).loggers = some i := by
  intro rest
  induction rest with
  | nil => intro acc l i h; exact h
  | cons lp rest ih =>
      intro acc l i h
      obtain ⟨lvl, path⟩ := lp
      rw [buildLoggers]
      cases hfind : assocFind path acc.cached with
      | some id => exact ih _ l i (assocFind_append_left l _ _ i h)
      | none => exact ih _ l i (assocFind_append_left l _ _ i h)

/-- Build invariants: sink ids are allocated densely in construction
order; every routed id is a constructed id. -/
theorem buildLoggers_inv {κ : Type} [DecidableEq κ] :
    ∀ (rest : List (κ × String)) (acc : RobustBuild κ),
    acc.constructed = acc.cached.length →
    acc.cached.map Prod.snd = List.range acc.cached.length →
    (∀ x ∈ acc.loggers, x.2 < acc.constructed) →
    (buildLoggers acc rest).constructed = (buildLoggers acc rest).cached.length ∧
    (buildLoggers acc rest).cached.map Prod.snd =
      List.range (buildLoggers acc rest).cached.length ∧
    (∀ x ∈ (buildLoggers acc rest).loggers, x.2 < (buildLoggers acc rest).constructed) := by
  intro rest
  induction rest with
  | nil => intro acc h1 h2 h3; exact ⟨h1, h2, h3⟩
  | cons lp rest ih =>
      intro acc h1 h2 h3
      obtain ⟨lvl, path⟩ := lp
      rw [buildLoggers]
      cases hfind : assocFind path acc.cached with
      | some id =>
          refine ih _ h1 h2 ?_
          intro x hx
          rcases List.mem_append.mp hx with hx | hx
          · exact h3 x hx
          · have hidmem : id ∈ acc.cached.map Prod.snd :=
              List.mem_map_of_mem Prod.snd (assocFind_mem path _ id hfind)
            rw [h2] at hidmem
            simp only [List.mem_singleton] at hx
            subst hx
            simpa [h1] using List.mem_range.mp hidmem
      | none =>
          refine ih _ ?_ ?_ ?_
          · simp [h1]
          · simp only [List.map_append, List.length_append, List.map_cons,
              List.map_nil, List.length_cons, List.length_nil]
            rw [h2, h1]
            simp [List.range_succ]
          · intro x hx
            rcases List.mem_append.mp hx with hx | hx
            · exact Nat.lt_succ_of_lt (h3 x hx)
            · simp only [List.mem_singleton] at hx
              subst hx
              exact Nat.lt_succ_self _

/-- The number of sinks a build constructs is the number of destination
paths not already cached. -/
theorem buildLoggers_card {κ : Type} [DecidableEq κ] :
    ∀ (rest : List (κ × String)) (acc : RobustBuild κ),
    (buildLoggers acc rest).constructed =
      acc.constructed +
        ((rest.map Prod.snd).toFinset \ (acc.cached.map Prod.fst).toFinset).card := by
  intro rest
  induction rest with
  | nil => intro acc; simp [buildLoggers]
  | cons lp rest ih =>
      intro acc
      obtain ⟨lvl, path⟩ := lp
      rw [buildLoggers]
      cases hfind : assocFind path acc.cached with
      | some id =>
          rw [ih]
          have hmem : path ∈ (acc.cached.map Prod.fst).toFinset := by
            simp only [List.mem_toFinset]
            exact List.mem_map_of_mem Prod.fst (assocFind_mem path _ id hfind)
          have hins : ((path :: rest.map Prod.snd).toFinset
                : Finset String) \ (acc.cached.map Prod.fst).toFinset =
              (rest.map Prod.snd).toFinset \ (acc.cached.map Prod.fst).toFinset := by
            ext x
            simp only [List.toFinset_cons, Finset.mem_sdiff, Finset.mem_insert]
            constructor
            · rintro ⟨hx | hx, hnx⟩
              · exact absurd (hx ▸ hmem) hnx
              · exact ⟨hx, hnx⟩
            · rintro ⟨hx, hnx⟩
              exact ⟨Or.inr hx, hnx⟩
          simp only [List.map_cons]
          rw [hins]
      | none =>
          rw [ih]
          have hnmem : path ∉ (acc.cached.map Prod.fst).toFinset := by
            simp only [List.mem_toFinset]
            exact (assocFind_eq_none path acc.cached).mp hfind
          have hkeys : (((acc.cached ++ [(path, acc.constructed)]).map Prod.fst).toFinset
                : Finset String) = insert path (acc.cached.map Prod.fst).toFinset := by
            ext x
            simp [or_comm]
          have hsdiff : ((path :: rest.map Prod.snd).toFinset
                : Finset String) \ (acc.cached.map Prod.fst).toFinset =
              insert path
                ((rest.map Prod.snd).toFinset \ insert path (acc.cached.map Prod.fst).toFinset) := by
            ext x
            simp only [List.toFinset_cons, Finset.mem_sdiff, Finset.mem_insert]
            constructor
            · rintro ⟨hx | hx, hnx⟩
              · exact Or.inl hx
              · by_cases hxe : x = path
                · exact Or.inl hxe
                · exact Or.inr ⟨hx, by simp [hxe, hnx]⟩
            · rintro (hx | ⟨hx, hnx⟩)
              · exact ⟨Or.inl hx, hx ▸ hnmem⟩
              · refine ⟨Or.inr hx, fun hc => hnx (Or.inr hc)⟩
          simp only [List.map_cons]
          rw [hsdiff, hkeys]
          rw [Finset.card_insert_of_not_mem (by simp)]
          omega

/-- Every level of the table is routed to the sink cached for its path. -/
theorem buildLoggers_assigns {κ : Type} [DecidableEq κ] :
    ∀ (rest : List (κ × String)) (acc : RobustBuild κ) (l : κ) (p : String),
    (l, p) ∈ rest →
    (rest.map Prod.fst).Nodup →
    l ∉ acc.loggers.map Prod.fst →
    ∃ i, assocFind l (buildLoggers acc rest).loggers = some i ∧
      assocFind p (buildLoggers acc rest).cached = some i := by
  intro rest
  induction rest with
  | nil => intro acc l p h; simp at h
  | cons lp rest ih =>
      intro acc l p hmem hnd hnotin
      obtain ⟨lvl, path⟩ := lp
      simp only [List.map_cons, List.nodup_cons] at hnd
      have hfindl : assocFind l acc.loggers = none := by
        rw [assocFind_eq_none]; exact hnotin
      rcases List.mem_cons.mp hmem with heq | htail
      · have hl2 : lvl = l := (congrArg Prod.fst heq).symm
        have hp2 : path = p := (congrArg Prod.snd heq).symm
        subst hl2
        subst hp2
        rw [buildLoggers]
        cases hfind : assocFind path acc.cached with
        | some id =>
            refine ⟨id, ?_, buildLoggers_cache_stable rest _ path id hfind⟩
            refine buildLoggers_loggers_stable rest _ lvl id ?_
            rw [assocFind_append_right lvl _ _ hfindl]
            simp [assocFind]
        | none =>
            refine ⟨acc.constructed, ?_, ?_⟩
            · refine buildLoggers_loggers_stable rest _ lvl acc.constructed ?_
              rw [assocFind_append_right lvl _ _ hfindl]
              simp [assocFind]
            · refine buildLoggers_cache_stable rest _ path acc.constructed ?_
              rw [assocFind_append_right path _ _ hfind]
              simp [assocFind]
      · have hlne : lvl ≠ l := by
          intro hc
          exact hnd.1 (hc ▸ List.mem_map_of_mem Prod.fst htail)
        rw [buildLoggers]
        cases hfind : assocFind path acc.cached with
        | some id =>
            refine ih _ l p htail hnd.2 ?_
            simp only [List.map_append, List.mem_append, List.map_cons, List.map_nil]
            rintro (hc | hc)
            · exact hnotin hc
            · simp only [List.mem_singleton] at hc
              exact hlne hc.symm
        | none =>
            refine ih _ l p htail hnd.2 ?_
            simp only [List.map_append, List.mem_append, List.map_cons, List.map_nil]
            rintro (hc | hc)
            · exact hnotin hc
            · simp only [List.mem_singleton] at hc
              exact hlne hc.symm

/-- Once a path is cached with sink id `i`, the rest of the build adds one
more routing entry for `i` per level mapped to that path. -/
theorem buildLoggers_count {κ : Type} [DecidableEq κ] :
    ∀ (rest : List (κ × String)) (acc : RobustBuild κ) (p : String) (i : Nat),
    acc.constructed = acc.cached.length →
    acc.cached.map Prod.snd = List.range acc.cached.length →
    assocFind p acc.cached = some i →
    ((buildLoggers acc rest).loggers.map Prod.snd).count i =
      (acc.loggers.map Prod.snd).count i + rest.countP (fun x => x.2 == p) := by
  intro rest
  induction rest with
  | nil => intro acc p i _ _ _; simp [buildLoggers]
  | cons lp rest ih =>
      intro acc p i h1 h2 hp
      obtain ⟨lvl, path⟩ := lp
      have hnd : (acc.cached.map Prod.snd).Nodup := by
        rw [h2]; exact List.nodup_range _
      cases hfind : assocFind path acc.cached with
      | some id =>
          rw [buildLoggers_cons_found acc lvl path rest id hfind]
          rw [ih { acc with loggers := acc.loggers ++ [(lvl, id)] } p i h1 h2 hp]
          simp only [List.map_append, List.count_append, List.map_cons, List.map_nil,
            List.count_cons, List.count_nil, List.countP_cons]
          by_cases hpe : path = p
          · subst hpe
            have hidi : id = i := by
              rw [hfind] at hp
              exact Option.some_inj.mp hp
            subst hidi
            simp
            omega
          · have hine : id ≠ i := by
              intro hc
              subst hc
              exact hpe (assocFind_snd_inj acc.cached hnd path p id hfind hp)
            simp [hine, hpe]
      | none =>
          have hpe : path ≠ p := by
            intro hc
            rw [hc, hp] at hfind
            cases hfind
          have hlt : i < acc.cached.length := by
            have hmemi : i ∈ acc.cached.map Prod.snd :=
              List.mem_map_of_mem Prod.snd (assocFind_mem p _ i hp)
            rw [h2] at hmemi
            exact List.mem_range.mp hmemi
          have hine : acc.constructed ≠ i := by omega
          rw [buildLoggers_cons_fresh acc lvl path rest hfind]
          rw [ih { loggers := acc.loggers ++ [(lvl, acc.constructed)]
                   cached := acc.cached ++ [(path, acc.constructed)]
                   constructed := acc.constructed + 1 } p i (by simp [h1]) ?_
              (assocFind_append_left p _ _ i hp)]
          · simp only [List.map_append, List.count_append, List.map_cons, List.map_nil,
              List.count_cons, List.count_nil, List.countP_cons]
            simp [hine, hpe]
          · simp only [List.map_append, List.length_append, List.map_cons,
              List.map_nil, List.length_cons, List.length_nil]
            rw [h2, h1]
            simp [List.range_succ]

/-- A path first met during the build gets a fresh sink, and the finished
routing table holds one entry for that sink per level mapped to the
path. -/
theorem buildLoggers_count_fresh {κ : Type} [DecidableEq κ] :
    ∀ (rest : List (κ × String)) (acc : RobustBuild κ) (l : κ) (p : String),
    acc.constructed = acc.cached.length →
    acc.cached.map Prod.snd = List.range acc.cached.length →
    (∀ x ∈ acc.loggers, x.2 < acc.constructed) →
    assocFind p acc.cached = none →
    (l, p) ∈ rest →
    ∃ i, assocFind p (buildLoggers acc rest).cached = some i ∧
      ((buildLoggers acc rest).loggers.map Prod.snd).count i =
        rest.countP (fun x => x.2 == p) := by
  intro rest
  induction rest with
  | nil => intro acc l p _ _ _ _ h; simp at h
  | cons lp rest ih =>
      intro acc l p h1 h2 h3 hnone hmem
      obtain ⟨lvl, path⟩ := lp
      by_cases hpe : path = p
      · subst hpe
        rw [buildLoggers_cons_fresh acc lvl path rest hnone]
        set acc' : RobustBuild κ :=
          { loggers := acc.loggers ++ [(lvl, acc.constructed)]
            cached := acc.cached ++ [(path, acc.constructed)]
            constructed := acc.constructed + 1 } with hacc
        have hfound : assocFind path acc'.cached = some acc.constructed := by
          rw [hacc]
          simp only
          rw [assocFind_append_right path _ _ hnone]
          simp [assocFind]
        have h1' : acc'.constructed = acc'.cached.length := by simp [hacc, h1]
        have h2' : acc'.cached.map Prod.snd = List.range acc'.cached.length := by
          simp only [hacc, List.map_append, List.length_append, List.map_cons,
            List.map_nil, List.length_cons, List.length_nil]
          rw [h2, h1]
          simp [List.range_succ]
        have hcnt0 : (acc.loggers.map Prod.snd).count acc.constructed = 0 := by
          rw [List.count_eq_zero]
          intro hc
          rcases List.mem_map.mp hc with ⟨x, hx, hx2⟩
          have := h3 x hx
          omega
        refine ⟨acc.constructed, buildLoggers_cache_stable rest acc' path _ hfound, ?_⟩
        rw [buildLoggers_count rest acc' path acc.constructed h1' h2' hfound]
        simp only [hacc, List.map_append, List.count_append, List.map_cons, List.map_nil,
          List.count_cons, List.count_nil, List.countP_cons]
        simp only [hcnt0]
        simp
        omega
      · have htail : (l, p) ∈ rest := by
          rcases List.mem_cons.mp hmem with heq | htail
          · exact absurd (congrArg Prod.snd heq).symm hpe
          · exact htail
        have hcp : ((lvl, path) :: rest).countP (fun x => x.2 == p) =
            rest.countP (fun x => x.2 == p) := by
          simp [List.countP_cons, hpe]
        rw [hcp]
        cases hfind : assocFind path acc.cached with
        | some id =>
            rw [buildLoggers_cons_found acc lvl path rest id hfind]
            exact ih { acc with loggers := acc.loggers ++ [(lvl, id)] } l p h1 h2
              (by
                intro x hx
                rcases List.mem_append.mp hx with hx | hx
                · exact h3 x hx
                · have hidmem : id ∈ acc.cached.map Prod.snd :=
                    List.mem_map_of_mem Prod.snd (assocFind_mem path _ id hfind)
                  rw [h2] at hidmem
                  simp only [List.mem_singleton] at hx
                  subst hx
                  simpa [h1] using List.mem_range.mp hidmem)
              hnone htail
        | none =>
            rw [buildLoggers_cons_fresh acc lvl path rest hfind]
            refine ih { loggers := acc.loggers ++ [(lvl, acc.constructed)]
                        cached := acc.cached ++ [(path, acc.constructed)]
                        constructed := acc.constructed + 1 } l p (by simp [h1]) ?_ ?_ ?_ htail
            · simp only [List.map_append, List.length_append, List.map_cons,
                List.map_nil, List.length_cons, List.length_nil]
              rw [h2, h1]
              simp [List.range_succ]
            · intro x hx
              rcases List.mem_append.mp hx with hx | hx
              · exact Nat.lt_succ_of_lt (h3 x hx)
              · simp only [List.mem_singleton] at hx
                subst hx
                exact Nat.lt_succ_self _
            · rw [assocFind_append_right p _ _ hnone]
              simp [assocFind, hpe]

/-- Counterexample to claim C2 as stated: two levels routed to the same
path share one constructed sink, but `Close` walks the level map, so the
shared sink receives two `Close` calls — not exactly one. -/
theorem c2_counterexample :
    (createRobustLoggers [((0 : Nat), "a.log"), (1, "a.log")]).constructed = 1 ∧
    closeTrace (createRobustLoggers [((0 : Nat), "a.log"), (1, "a.log")]).loggers
        (createRobustLoggers [((0 : Nat), "a.log"), (1, "a.log")]).constructed = [0, 0, 1] ∧
    ¬ ((closeTrace (createRobustLoggers [((0 : Nat), "a.log"), (1, "a.log")]).loggers
        (createRobustLoggers [((0 : Nat), "a.log"), (1, "a.log")]).constructed).count 0 = 1) := by
  refine ⟨rfl, rfl, by decide⟩

/-- Claim C2, amended: building a routing sink constructs exactly one
underlying sink per distinct destination path and shares it across all
levels mapped to that path; `Close`, however, closes the default sink once
and each underlying sink once per level mapped to it — a sink shared by
several levels is closed several times, at least once but not exactly
once. -/
theorem c2_dedup_and_close_per_level {κ : Type} [DecidableEq κ]
    (paths : List (κ × String)) (hnodup : (paths.map Prod.fst).Nodup) :
    (createRobustLoggers paths).constructed = (paths.map Prod.snd).toFinset.card ∧
    (∀ l1 l2 p, (l1, p) ∈ paths → (l2, p) ∈ paths →
        ∃ i, assocFind l1 (createRobustLoggers paths).loggers = some i ∧
             assocFind l2 (createRobustLoggers paths).loggers = some i) ∧
    (∀ l p, (l, p) ∈ paths →
        ∃ i, assocFind l (createRobustLoggers paths).loggers = some i ∧
          (closeTrace (createRobustLoggers paths).loggers
              (createRobustLoggers paths).constructed).count i =
            paths.countP (fun x => x.2 == p) ∧
          1 ≤ paths.countP (fun x => x.2 == p)) := by
  have hinv := buildLoggers_inv (κ := κ) paths ⟨[], [], 0⟩ rfl rfl (by intro x hx; simp at hx)
  refine ⟨?_, ?_, ?_⟩
  · have := buildLoggers_card (κ := κ) paths ⟨[], [], 0⟩
    simpa [createRobustLoggers] using this
  · intro l1 l2 p h1 h2
    obtain ⟨i1, hl1, hc1⟩ :=
      buildLoggers_assigns paths ⟨[], [], 0⟩ l1 p h1 hnodup (by simp)
    obtain ⟨i2, hl2, hc2⟩ :=
      buildLoggers_assigns paths ⟨[], [], 0⟩ l2 p h2 hnodup (by simp)
    have h12 : i1 = i2 := by
      rw [hc1] at hc2
      exact Option.some_inj.mp hc2
    exact ⟨i1, hl1, h12 ▸ hl2⟩
  · intro l p hmem
    obtain ⟨i, hl, hc⟩ :=
      buildLoggers_assigns paths ⟨[], [], 0⟩ l p hmem hnodup (by simp)
    obtain ⟨i', hc', hcount⟩ :=
      buildLoggers_count_fresh paths ⟨[], [], 0⟩ l p rfl rfl
        (by intro x hx; simp at hx) rfl hmem
    have hii : i = i' := by
      rw [hc] at hc'
      exact Option.some_inj.mp hc'
    subst hii
    have hlt : i < (createRobustLoggers paths).constructed := by
      have hmemi : i ∈ (createRobustLoggers paths).cached.map Prod.snd :=
        List.mem_map_of_mem Prod.snd (assocFind_mem p _ i hc)
      rw [show (createRobustLoggers paths).cached =
            (buildLoggers (⟨[], [], 0⟩ : RobustBuild κ) paths).cached from rfl,
        hinv.2.1] at hmemi
      rw [show (createRobustLoggers paths).constructed =
            (buildLoggers (⟨[], [], 0⟩ : RobustBuild κ) paths).constructed from rfl,
        hinv.1]
      exact List.mem_range.mp hmemi
    refine ⟨i, hl, ?_, ?_⟩
    · have hne : ((createRobustLoggers paths).constructed == i) = false := by
        simp only [beq_eq_false_iff_ne]
        omega
      show ((createRobustLoggers paths).loggers.map Prod.snd
          ++ [(createRobustLoggers paths).constructed]).count i = _
      rw [List.count_append]
      rw [show ((createRobustLoggers paths).loggers.map Prod.snd).count i =
            (((buildLoggers (⟨[], [], 0⟩ : RobustBuild κ) paths).loggers.map
              Prod.snd).count i) from rfl, hcount]
      simp [List.count_cons, hne]
    · rw [Nat.succ_le_iff, List.countP_pos_iff]
      exact ⟨(l, p), hmem, by simp⟩

/-- Witness for the amended C2 at a concrete table: three levels over two
distinct paths construct exactly two sinks. -/
theorem c2_witness :
    (createRobustLoggers [((0 : Nat), "a.log"), (1, "a.log"), (2, "b.log")]).constructed =
      (([((0 : Nat), "a.log"), (1, "a.log"), (2, "b.log")].map Prod.snd).toFinset).card :=
  (c2_dedup_and_close_per_level
    [((0 : Nat), "a.log"), (1, "a.log"), (2, "b.log")] (by decide)).1

/-- A digit value below ten renders to a digit character. -/
theorem digitChar_isDigit (d : Nat) (h : d < 10) : (digitChar d).isDigit = true := by
  interval_cases d <;> decide

/-- Rendering then reading a digit value below ten is the identity. -/
theorem charVal_digitChar (d : Nat) (h : d < 10) : charVal (digitChar d) = d := by
  interval_cases d <;> decide

/-- A digit character is none of the structural characters of a rotation
name. -/
theorem isDigit_ne_special (c : Char) (h : c.isDigit = true) :
    c ≠ '(' ∧ c ≠ ')' ∧ c ≠ '.' ∧ c ≠ '/' ∧ c ≠ '-' ∧ c ≠ '+' ∧ c ≠ '_' := by
  refine ⟨?_, ?_, ?_, ?_, ?_, ?_, ?_⟩ <;> (rintro rfl; exact absurd h (by decide))

/-- With enough fuel, the division-based digit rendering agrees with
`Nat.digits`. -/
theorem natToCharsAux_eq (fuel : Nat) :
    ∀ n, n ≤ fuel → natToCharsAux fuel n = ((Nat.digits 10 n).map digitChar).reverse := by
  induction fuel with
  | zero =>
      intro n hn
      have h0 : n = 0 := by omega
      subst h0
      simp [natToCharsAux]
  | succ fuel ih =>
      intro n hn
      by_cases h0 : n = 0
      · subst h0
        simp [natToCharsAux]
      · rw [natToCharsAux, if_neg h0]
        have hdiv : n / 10 < n := Nat.div_lt_self (Nat.pos_of_ne_zero h0) (by norm_num)
        rw [ih (n / 10) (by omega)]
        rw [Nat.digits_def' (by norm_num : (1 : ℕ) < 10) (Nat.pos_of_ne_zero h0)]
        simp [List.reverse_cons]

/-- The decimal rendering, expressed through `Nat.digits`. -/
theorem natToChars_eq_digits (n : Nat) :
    natToChars n = if n = 0 then ['0'] else ((Nat.digits 10 n).map digitChar).reverse := by
  rw [natToChars]
  by_cases h0 : n = 0
  · simp [h0]
  · rw [if_neg h0, if_neg h0, natToCharsAux_eq n n (le_refl n)]

/-- The decimal rendering of a natural number is all digit characters. -/
theorem natToChars_all_digits (n : Nat) : ∀ c ∈ natToChars n, c.isDigit = true := by
  intro c hc
  rw [natToChars_eq_digits] at hc
  split at hc
  · simp only [List.mem_singleton] at hc
    subst hc
    decide
  · rw [List.mem_reverse, List.mem_map] at hc
    obtain ⟨d, hd, rfl⟩ := hc
    exact digitChar_isDigit d (Nat.digits_lt_base (by norm_num) hd)

/-- The decimal rendering of a natural number is nonempty. -/
theorem natToChars_ne_nil (n : Nat) : natToChars n ≠ [] := by
  rw [natToChars_eq_digits]
  split
  · simp
  · simp only [ne_eq, List.reverse_eq_nil_iff, List.map_eq_nil_iff]
    exact Nat.digits_ne_nil_iff_ne_zero.mpr (by omega)

/-- Reading back the decimal rendering of a natural number. -/
theorem charsToNat_natToChars (n : Nat) : charsToNat (natToChars n) = n := by
  rw [natToChars_eq_digits]
  split
  · rename_i h
    subst h
    rfl
  · rw [charsToNat, List.map_reverse, List.reverse_reverse, List.map_map]
    rw [List.map_congr_left (g := id) ?_, List.map_id]
    · exact Nat.ofDigits_digits 10 n
    · intro d hd
      exact charVal_digitChar d (Nat.digits_lt_base (by norm_num) hd)

/-- Zero-padded two-digit renderings are all digit characters. -/
theorem pad2Chars_all_digits (n : Nat) : ∀ c ∈ pad2Chars n, c.isDigit = true := by
  intro c hc
  rw [pad2Chars] at hc
  split at hc
  · rcases List.mem_cons.mp hc with rfl | hc
    · decide
    · exact natToChars_all_digits n c hc
  · exact natToChars_all_digits n c hc

/-- Zero-padded four-digit renderings are all digit characters. -/
theorem pad4Chars_all_digits (n : Nat) : ∀ c ∈ pad4Chars n, c.isDigit = true := by
  intro c hc
  rw [pad4Chars] at hc
  split at hc
  · rcases List.mem_cons.mp hc with rfl | hc
    · decide
    · rcases List.mem_cons.mp hc with rfl | hc
      · decide
      · rcases List.mem_cons.mp hc with rfl | hc
        · decide
        · exact natToChars_all_digits n c hc
  · split at hc
    · rcases List.mem_cons.mp hc with rfl | hc
      · decide
      · rcases List.mem_cons.mp hc with rfl | hc
        · decide
        · exact natToChars_all_digits n c hc
    · split at hc
      · rcases List.mem_cons.mp hc with rfl | hc
        · decide
        · exact natToChars_all_digits n c hc
      · exact natToChars_all_digits n c hc

/-- Every character of a formatted file-name date is an underscore, a
hyphen or a digit. -/
theorem formatTimeFileName_chars (t : Timestamp) :
    ∀ c ∈ formatTimeFileName t, c = '_' ∨ c = '-' ∨ c.isDigit = true := by
  intro c hc
  rw [formatTimeFileName] at hc
  rcases List.mem_cons.mp hc with rfl | hc
  · exact Or.inl rfl
  · rcases List.mem_append.mp hc with hc | hc
    · exact Or.inr (Or.inr (pad4Chars_all_digits t.year c hc))
    · rcases List.mem_cons.mp hc with rfl | hc
      · exact Or.inr (Or.inl rfl)
      · rcases List.mem_append.mp hc with hc | hc
        · exact Or.inr (Or.inr (pad2Chars_all_digits t.month c hc))
        · rcases List.mem_cons.mp hc with rfl | hc
          · exact Or.inr (Or.inl rfl)
          · exact Or.inr (Or.inr (pad2Chars_all_digits t.day c hc))

/-- A formatted file-name date contains no parenthesis, no dot, no slash
and no percent sign. -/
theorem formatTimeFileName_no_special (t : Timestamp) :
    ∀ c ∈ formatTimeFileName t, c ≠ '(' ∧ c ≠ ')' ∧ c ≠ '.' ∧ c ≠ '/' := by
  intro c hc
  rcases formatTimeFileName_chars t c hc with rfl | rfl | hd
  · exact ⟨by decide, by decide, by decide, by decide⟩
  · exact ⟨by decide, by decide, by decide, by decide⟩
  · obtain ⟨h1, h2, h3, h4, _, _, _⟩ := isDigit_ne_special c hd
    exact ⟨h1, h2, h3, h4⟩

/-- The last character of a formatted file-name date is a digit. -/
theorem formatTimeFileName_getLast (t : Timestamp) :
    ∃ c, (formatTimeFileName t).getLast? = some c ∧ c.isDigit = true := by
  have hne : pad2Chars t.day ≠ [] := by
    rw [pad2Chars]
    split
    · simp
    · exact natToChars_ne_nil _
  obtain ⟨L, b, hLb⟩ := (List.eq_nil_or_concat (pad2Chars t.day)).resolve_left hne
  rw [List.concat_eq_append] at hLb
  refine ⟨b, ?_, ?_⟩
  · rw [formatTimeFileName]
    rw [show ('_' :: (pad4Chars t.year ++ '-' :: (pad2Chars t.month ++ '-' :: pad2Chars t.day)))
          = ('_' :: (pad4Chars t.year ++ '-' :: (pad2Chars t.month ++ ['-'])))
            ++ pad2Chars t.day from by simp]
    rw [List.getLast?_append_of_ne_nil _ hne, hLb, List.getLast?_concat]
  · exact pad2Chars_all_digits t.day b (by rw [hLb]; simp)

/-- The extension scan walks dot-free, slash-free characters into the
accumulator and stops at the first dot. -/
theorem extSearch_skip (erev : List Char) (rest acc : List Char)
    (h : ∀ c ∈ erev, c ≠ '.' ∧ c ≠ '/') :
    extSearch (erev ++ '.' :: rest) acc = '.' :: (erev.reverse ++ acc) := by
  induction erev generalizing acc with
  | nil => simp [extSearch]
  | cons c cs ih =>
      obtain ⟨hdot, hslash⟩ := h c (List.mem_cons_self c cs)
      rw [List.cons_append, extSearch, if_neg hslash, if_neg hdot]
      rw [ih _ (fun x hx => h x (List.mem_cons_of_mem c hx))]
      simp

/-- `filepath.Ext` of a path ending in a dot-extension whose tail has no
further dot or slash. -/
theorem goExt_concat (pre e : List Char) (h : ∀ c ∈ e, c ≠ '.' ∧ c ≠ '/') :
    goExt (pre ++ '.' :: e) = '.' :: e := by
  rw [goExt, List.reverse_append, List.reverse_cons]
  rw [show e.reverse ++ ['.'] ++ pre.reverse = e.reverse ++ '.' :: pre.reverse from by simp]
  rw [extSearch_skip e.reverse pre.reverse []
    (fun c hc => h c (List.mem_reverse.mp hc))]
  simp

/-- Dropping the extension of `pre ++ ext` leaves `pre`. -/
theorem take_drop_ext (pre ext : List Char) :
    (pre ++ ext).take ((pre ++ ext).length - ext.length) = pre := by
  rw [List.length_append, Nat.add_sub_cancel]
  exact List.take_left pre ext

/-- The first parenthesis of `pre ++ '(' :: rest` with a paren-free prefix
sits at `pre.length`. -/
theorem findParen_prefix (pre rest : List Char) (h : '(' ∉ pre) :
    findParen (pre ++ '(' :: rest) = some pre.length := by
  induction pre with
  | nil => simp [findParen]
  | cons c cs ih =>
      have hc : c ≠ '(' := by
        intro hc
        exact h (hc ▸ List.mem_cons_self c cs)
      rw [List.cons_append, findParen, if_neg hc]
      rw [ih (fun hx => h (List.mem_cons_of_mem c hx))]
      simp

/-- `takeWhile isDigit` of an all-digit run followed by a parenthesis is
the run itself. -/
theorem takeWhile_digits_paren (ds rest : List Char)
    (h : ∀ c ∈ ds, c.isDigit = true) :
    (ds ++ ')' :: rest).takeWhile Char.isDigit = ds := by
  induction ds with
  | nil => simp [List.takeWhile]
  | cons c cs ih =>
      rw [List.cons_append, List.takeWhile_cons]
      rw [h c (List.mem_cons_self c cs)]
      simp only [if_true]
      rw [ih (fun x hx => h x (List.mem_cons_of_mem c hx))]

/-- `fmt.Sprintf("%d")` of a natural value agrees with the natural
rendering. -/
theorem intToChars_natCast (m : Nat) : intToChars (m : Int) = natToChars m := by
  rw [intToChars, if_neg (by omega), Int.toNat_natCast]

/-- `incFileName` on a name without a version counter: the counter `(1)` is
inserted before the extension. -/
theorem incFileName_plain (pre e : List Char) (c : Char)
    (he : ∀ x ∈ e, x ≠ '.' ∧ x ≠ '/')
    (hlast : pre.getLast? = some c) (hc : c ≠ ')') :
    incFileName (pre ++ '.' :: e) =
      some (pre ++ '(' :: (natToChars 1 ++ [')']) ++ '.' :: e) := by
  have hext : goExt (pre ++ '.' :: e) = '.' :: e := goExt_concat pre e he
  simp only [incFileName, hext, take_drop_ext pre ('.' :: e), hlast]
  rw [if_neg hc]
  rw [show intToChars 1 = natToChars 1 from intToChars_natCast 1]

/-- `incFileName` on a name carrying version counter `n+1`: the counter is
parsed, incremented and re-attached. -/
theorem incFileName_paren (pre e : List Char) (n : Nat)
    (he : ∀ x ∈ e, x ≠ '.' ∧ x ≠ '/')
    (hpre : '(' ∉ pre) :
    incFileName (pre ++ '(' :: (natToChars (n + 1) ++ [')']) ++ '.' :: e) =
      some (pre ++ '(' :: (natToChars (n + 2) ++ [')']) ++ '.' :: e) := by
  set ds := natToChars (n + 1) with hds
  have hgroup : pre ++ '(' :: (ds ++ [')']) ++ '.' :: e =
      (pre ++ '(' :: (ds ++ [')'])) ++ '.' :: e := by
    simp [List.append_assoc]
  rw [hgroup]
  have hext : goExt ((pre ++ '(' :: (ds ++ [')'])) ++ '.' :: e) = '.' :: e :=
    goExt_concat _ e he
  have hlast : (pre ++ '(' :: (ds ++ [')'])).getLast? = some ')' := by
    rw [show pre ++ '(' :: (ds ++ [')']) = (pre ++ '(' :: ds) ++ [')'] from by simp]
    exact List.getLast?_concat _
  have hfp : findParen (pre ++ '(' :: (ds ++ [')'])) = some pre.length :=
    findParen_prefix pre (ds ++ [')']) hpre
  simp only [incFileName, hext, take_drop_ext (pre ++ '(' :: (ds ++ [')'])) ('.' :: e),
    hlast, hfp]
  rw [if_true]
  have hdrop : (pre ++ '(' :: (ds ++ [')'])).drop (pre.length + 1) = ds ++ [')'] := by
    rw [show pre ++ '(' :: (ds ++ [')']) = (pre ++ ['(']) ++ (ds ++ [')']) from by simp]
    rw [show pre.length + 1 = (pre ++ ['(']).length from by simp]
    exact List.drop_left _ _
  have htake : (pre ++ '(' :: (ds ++ [')'])).take pre.length = pre :=
    List.take_left pre _
  rw [hdrop, htake]
  have hpv : parseVersion (ds ++ [')']) = ((n + 1 : Nat) : Int) := by
    obtain ⟨d0, ds2, hds0⟩ := List.exists_cons_of_ne_nil (natToChars_ne_nil (n + 1))
    have hd0 : d0.isDigit = true := by
      refine natToChars_all_digits (n + 1) d0 ?_
      show d0 ∈ natToChars (n + 1)
      rw [hds0]
      exact List.mem_cons_self _ _
    obtain ⟨_, _, _, _, hdm, hdp, _⟩ := isDigit_ne_special d0 hd0
    have hhead : (ds ++ [')']).head? = some d0 := by
      rw [hds, hds0]
      rfl
    rw [parseVersion]
    simp only [hhead, Option.some.injEq]
    rw [if_neg hdm, if_neg hdp]
    rw [takeWhile_digits_paren ds [] (by rw [hds]; exact natToChars_all_digits (n + 1))]
    rw [if_neg (by rw [hds]; exact natToChars_ne_nil (n + 1))]
    rw [if_neg (by simp [hdm])]
    rw [hds, charsToNat_natToChars]
  rw [hpv]
  rw [show ((n + 1 : Nat) : Int) + 1 = ((n + 2 : Nat) : Int) from by push_cast; ring]
  rw [intToChars_natCast]

/-- Every rotation name is bumped by `incFileName` to the next one in the
family. -/
theorem incFileName_rotName (stem0 e : List Char) (t : Timestamp)
    (hstem : '(' ∉ stem0) (he : ∀ x ∈ e, x ≠ '.' ∧ x ≠ '/') :
    ∀ j, incFileName (rotName stem0 e t j) = some (rotName stem0 e t (j + 1)) := by
  have hdate_ne : formatTimeFileName t ≠ [] := by
    rw [formatTimeFileName]
    simp
  have hpre : '(' ∉ stem0 ++ formatTimeFileName t := by
    rw [List.mem_append]
    rintro (hx | hx)
    · exact hstem hx
    · exact (formatTimeFileName_no_special t '(' hx).1 rfl
  intro j
  cases j with
  | zero =>
      obtain ⟨c, hcl, hcd⟩ := formatTimeFileName_getLast t
      have hlast : (stem0 ++ formatTimeFileName t).getLast? = some c := by
        rw [List.getLast?_append_of_ne_nil _ hdate_ne, hcl]
      have hstep := incFileName_plain (stem0 ++ formatTimeFileName t) e c he hlast
        (isDigit_ne_special c hcd).2.1
      rw [show rotName stem0 e t 0 = (stem0 ++ formatTimeFileName t) ++ '.' :: e from by
        simp [rotName, List.append_assoc]]
      rw [hstep]
      rw [show (0 : Nat) + 1 = 1 from rfl]
      simp [rotName, List.append_assoc]
  | succ n =>
      have hstep := incFileName_paren (stem0 ++ formatTimeFileName t) e n he hpre
      rw [show rotName stem0 e t (n + 1) =
            (stem0 ++ formatTimeFileName t) ++ '(' :: (natToChars (n + 1) ++ [')'])
              ++ '.' :: e from by simp [rotName, List.append_assoc]]
      rw [hstep]
      simp [rotName, List.append_assoc]

/-- Distinct indices give distinct rotation names. -/
theorem rotName_inj (stem0 e : List Char) (t : Timestamp) :
    Function.Injective (rotName stem0 e t) := by
  intro i j hij
  have digits_eq : ∀ m k : Nat,
      natToChars (m + 1) ++ ')' :: '.' :: e = natToChars (k + 1) ++ ')' :: '.' :: e →
      m = k := by
    intro m k h
    have h2 := congrArg (List.takeWhile Char.isDigit) h
    rw [takeWhile_digits_paren _ _ (natToChars_all_digits (m + 1)),
      takeWhile_digits_paren _ _ (natToChars_all_digits (k + 1))] at h2
    have h3 := congrArg charsToNat h2
    rw [charsToNat_natToChars, charsToNat_natToChars] at h3
    omega
  cases i with
  | zero =>
      cases j with
      | zero => rfl
      | succ k =>
          exfalso
          rw [rotName, rotName] at hij
          simp only [List.append_assoc, List.cons_append, List.nil_append] at hij
          have h1 := @List.append_cancel_left _ stem0 _ _ hij
          have h2 := @List.append_cancel_left _ (formatTimeFileName t) _ _ h1
          injection h2 with hhead _
          exact absurd hhead (by decide)
  | succ m =>
      cases j with
      | zero =>
          exfalso
          rw [rotName, rotName] at hij
          simp only [List.append_assoc, List.cons_append, List.nil_append] at hij
          have h1 := @List.append_cancel_left _ stem0 _ _ hij
          have h2 := @List.append_cancel_left _ (formatTimeFileName t) _ _ h1
          injection h2 with hhead _
          exact absurd hhead (by decide)
      | succ k =>
          rw [rotName, rotName] at hij
          simp only [List.append_assoc, List.cons_append, List.nil_append] at hij
          have h1 := @List.append_cancel_left _ stem0 _ _ hij
          have h2 := @List.append_cancel_left _ (formatTimeFileName t) _ _ h1
          injection h2 with _ htail
          rw [digits_eq m k htail]

/-- A sequence of pairwise-distinct names cannot stay inside a finite set
of existing files: some index up to the set's size is unused. -/
theorem exists_unused_index (existing : List (List Char)) (f : Nat → List Char)
    (hinj : Function.Injective f) :
    ∃ m, m ≤ existing.length ∧ f m ∉ existing := by
  by_contra hcon
  push_neg at hcon
  have hsub : (Finset.range (existing.length + 1)).image f ⊆ existing.toFinset := by
    intro x hx
    rw [Finset.mem_image] at hx
    obtain ⟨m, hm, rfl⟩ := hx
    rw [List.mem_toFinset]
    exact hcon m (Nat.lt_succ_iff.mp (Finset.mem_range.mp hm))
  have hcard := Finset.card_le_card hsub
  rw [Finset.card_image_of_injective _ hinj, Finset.card_range] at hcard
  have hle := List.toFinset_card_le existing
  omega

/-- The retry loop of `incFileNameUntilNotExists`, run on any name family
that `incFileName` bumps by one: given enough fuel to reach an unused
index, it returns the first unused name at or after the start index. -/
theorem incUntil_spec (existing : List (List Char)) (f : Nat → List Char)
    (hstep : ∀ j, incFileName (f j) = some (f (j + 1))) :
    ∀ (fuel k : Nat), (∃ m, m < fuel ∧ f (k + m) ∉ existing) →
    ∃ n, incFileNameUntilNotExists existing fuel (f k) = some (f n) ∧ k ≤ n ∧
      f n ∉ existing ∧ ∀ j, k ≤ j → j < n → f j ∈ existing := by
  intro fuel
  induction fuel with
  | zero =>
      rintro k ⟨m, hm, _⟩
      omega
  | succ fuel ih =>
      rintro k ⟨m, hm, hnot⟩
      rw [incFileNameUntilNotExists]
      by_cases hk : f k ∈ existing
      · rw [if_pos hk, hstep k]
        simp only [Option.some_bind]
        have hm0 : m ≠ 0 := by
          rintro rfl
          exact hnot (by simpa using hk)
        obtain ⟨m2, rfl⟩ : ∃ m2, m = m2 + 1 := ⟨m - 1, by omega⟩
        obtain ⟨n, h1, h2, h3, h4⟩ := ih (k + 1)
          ⟨m2, by omega, by rw [show k + 1 + m2 = k + (m2 + 1) from by omega]; exact hnot⟩
        refine ⟨n, h1, by omega, h3, ?_⟩
        intro j hj1 hj2
        by_cases hjk : j = k
        · exact hjk ▸ hk
        · exact h4 j (by omega) hj2
      · rw [if_neg hk]
        exact ⟨k, rfl, le_refl k, hk, fun j h1 h2 => absurd (lt_of_le_of_lt h1 h2)
          (by omega)⟩

/-- Counterexample to claim C5 as stated, which quantifies over every base
path: for the base path `a(b).log`, whose stem itself contains a
parenthesis, with the dated name `a(b)_2024-01-02.log` and its `(1)`
variant both existing, the rotation naming function misparses the version
counter at the stem's own parenthesis — `strings.Index` finds the first
`(`, the `%d` scan hits `b` and fails, leaving version 0 — and returns
`a(1).log` instead of the claimed first-unused `a(b)_2024-01-02(2).log`. -/
theorem c5_counterexample :
    getTimestampedFileName
        ["a(b)_2024-01-02.log".toList, "a(b)_2024-01-02(1).log".toList] 3
        ⟨2024, 1, 2, 3, 4, 5⟩ "a(b).log".toList = some "a(1).log".toList ∧
    "a(1).log".toList ≠ "a(b)_2024-01-02(2).log".toList := by
  constructor <;> decide

/-- Claim C5, amended: for a base path `stem0 ++ "." ++ e` whose stem
contains no parenthesis and no percent sign and whose extension contains
no dot, slash or percent sign — the shapes whose string surgery
(`strings.Index` for the counter, `Fscanf`/`Sprintf` `%`-verbs) the code
handles as the claim describes; a parenthesis in the stem derails the
counter parse, see the counterexample above — and for any set of existing
file names, the rotation naming function returns the dated name
`stem0_YYYY-MM-DD.e` (the date formatted from the configured-zone clock
value `t`) when it is unused, and otherwise the first name in the sequence
`(1)`, `(2)`, … that is unused; the result is never an existing name, and
every earlier name of the family does exist.  Determinism holds because
the embedding is a pure function of (base path, date, existing files). -/
theorem c5_rotation_first_unused (stem0 e : List Char) (existing : List (List Char))
    (t : Timestamp) (fuel : Nat)
    (hfuel : existing.length + 1 ≤ fuel)
    (hstem_paren : '(' ∉ stem0) (_hstem_pct : '%' ∉ stem0)
    (he : ∀ c ∈ e, c ≠ '.' ∧ c ≠ '/' ∧ c ≠ '%') :
    ∃ n, getTimestampedFileName existing fuel t (stem0 ++ '.' :: e) =
        some (rotName stem0 e t n) ∧
      rotName stem0 e t n ∉ existing ∧
      ∀ m, m < n → rotName stem0 e t m ∈ existing := by
  have he2 : ∀ c ∈ e, c ≠ '.' ∧ c ≠ '/' := fun c hc => ⟨(he c hc).1, (he c hc).2.1⟩
  have hext : goExt (stem0 ++ '.' :: e) = '.' :: e := goExt_concat stem0 e he2
  have hbase : getTimestampedFileName existing fuel t (stem0 ++ '.' :: e) =
      incFileNameUntilNotExists existing fuel (rotName stem0 e t 0) := by
    rw [getTimestampedFileName]
    simp only [hext, take_drop_ext stem0 ('.' :: e)]
    rfl
  rw [hbase]
  have hstep := incFileName_rotName stem0 e t hstem_paren he2
  obtain ⟨m, hm, hnot⟩ :=
    exists_unused_index existing (rotName stem0 e t) (rotName_inj stem0 e t)
  obtain ⟨n, h1, _, h3, h4⟩ :=
    incUntil_spec existing (rotName stem0 e t) hstep fuel 0
      ⟨m, by omega, by simpa using hnot⟩
  exact ⟨n, h1, h3, fun j hj => h4 j (Nat.zero_le j) hj⟩

/-- Witness for C5: with the dated name already on disk, the next roll
picks the `(1)` name, which is fresh. -/
theorem c5_witness :
    ∃ n, getTimestampedFileName [rotName ['a'] ['l', 'o', 'g'] ⟨2024, 1, 2, 3, 4, 5⟩ 0] 2
        ⟨2024, 1, 2, 3, 4, 5⟩ (['a'] ++ '.' :: ['l', 'o', 'g']) =
        some (rotName ['a'] ['l', 'o', 'g'] ⟨2024, 1, 2, 3, 4, 5⟩ n) ∧
      rotName ['a'] ['l', 'o', 'g'] ⟨2024, 1, 2, 3, 4, 5⟩ n ∉
        [rotName ['a'] ['l', 'o', 'g'] ⟨2024, 1, 2, 3, 4, 5⟩ 0] ∧
      ∀ m, m < n → rotName ['a'] ['l', 'o', 'g'] ⟨2024, 1, 2, 3, 4, 5⟩ m ∈
        [rotName ['a'] ['l', 'o', 'g'] ⟨2024, 1, 2, 3, 4, 5⟩ 0] :=
  c5_rotation_first_unused ['a'] ['l', 'o', 'g']
    [rotName ['a'] ['l', 'o', 'g'] ⟨2024, 1, 2, 3, 4, 5⟩ 0] ⟨2024, 1, 2, 3, 4, 5⟩ 2
    (by decide) (by decide) (by decide) (by decide)

end Sherlog
